import Mathlib

/-!
Verification of the Tortuga-Node weekly scoring cycle.

This file gives a shallow embedding of the scoring-cycle code of the
repository and proves the spec's claims about it:

* `computeWeekWindow` — the pure week-window calculator of
  `src/src/controllers/compute.ts` (times are Unix milliseconds as `Int`).
* `acquisitionAllowed` — the acquisition-window predicate of the
  `enforceAcquisitionWindow` middleware (`src/services/permissions.ts`);
  `weekday` follows Luxon numbering (1 = Monday … 7 = Sunday).
* the tie-aware ranking engine and temporally-filtered revenue aggregation of
  `src/unnamed/part_034` (`pointFor`, `rankLoop`, `ownerByMovie`, …).
* the refactored compute controller pipeline of
  `src/src/controllers/compute.ts` (`perStudioTotals`, `computeWeekCtrl`, …),
  with Mongo `findOneAndUpdate`-with-upsert writes modelled as keyed
  association-list upserts.
* the ownership controller (`createOwnership`, `retireOwnership` of
  `src/src/controllers/ownership.ts`) and the award controller
  (`applyAwardBonus` of `src/src/controllers/award.ts`), with the database
  collections passed in explicitly as lists.

JavaScript `Map` objects are modelled as association lists with
insertion-order semantics (`set` on an existing key updates in place, a new
key appends), and `Array.prototype.sort` with the descending comparator is
modelled by a stable structural insertion sort.
-/

namespace Tortuga

/-! ### Data model -/

/-- A `MovieOwnership` document (src/models/MovieOwnership.ts). -/
structure Ownership where
  id : Nat
  leagueId : Nat
  seasonId : Nat
  studioId : Nat
  movieId : Nat
  purchasePrice : Int
  acquiredAt : Int
  retiredAt : Option Int
  refundApplied : Bool
deriving DecidableEq, Repr

/-- A `MovieWeeklyRevenue` document. -/
structure RevenueRow where
  movieId : Nat
  weekStart : Int
  weekEnd : Int
  domesticGross : Int
  worldwideGross : Int
deriving DecidableEq, Repr

/-! ### Week window calculator (src/src/controllers/compute.ts lines 23–27) -/

/-- Milliseconds in seven days, `7 * 24 * 60 * 60 * 1000`. -/
def msPerWeek : Int := 7 * 24 * 60 * 60 * 1000

/-- The `[weekStart, weekEnd]` pair returned by `computeWeekWindow`. -/
structure WeekWindow where
  weekStart : Int
  weekEnd : Int
deriving DecidableEq, Repr

/-- Model of `computeWeekWindow(start, weekIndex)`:
`ws = start + weekIndex*7*24*60*60*1000`, `we = ws + 7*24*60*60*1000 - 1`. -/
def computeWeekWindow (start : Int) (weekIndex : Int) : WeekWindow :=
  let ws := start + weekIndex * msPerWeek
  { weekStart := ws, weekEnd := ws + msPerWeek - 1 }

/-! ### Acquisition window guard (src/services/permissions.ts lines 24–50) -/

/-- The `allowed` predicate of `enforceAcquisitionWindow`:
`weekday === 2 || weekday === 3 || weekday === 4 || (weekday === 5 && hour < 20)`
with Luxon weekday numbering (1 = Monday … 7 = Sunday).  Note that Luxon
weekday 5 is Friday, even though the source comments label it Thursday. -/
def acquisitionAllowed (weekday : Nat) (hour : Nat) : Bool :=
  weekday == 2 || weekday == 3 || weekday == 4 || (weekday == 5 && hour < 20)

/-! ### Tie-aware ranking engine (src/unnamed/part_034 lines 66–93) -/

/-- One entry of the per-studio totals fed into the ranking sort. -/
structure StudioTotal where
  studioId : Nat
  revenue : Int
deriving DecidableEq, Repr

/-- One row of the ranked output (`{ studioId, revenue, rank, points }`). -/
structure RankedRow where
  studioId : Nat
  revenue : Int
  rank : Nat
  points : ℚ
deriving DecidableEq, Repr

/-- The formula `pointFor = (pos) => 2 * N - 2 * (pos - 1)` (part_034 line 74). -/
def pointFor (n : Nat) (pos : Nat) : ℚ :=
  2 * (n : ℚ) - 2 * ((pos : ℚ) - 1)

/-- Stable insertion of `x` into a list kept in descending `key` order:
`x` goes in front of the first element whose key is at most `key x`, so among
equal keys earlier elements stay first. -/
def insertDescBy {α : Type} (key : α → Int) (x : α) : List α → List α
  | [] => [x]
  | y :: ys => if key y ≤ key x then x :: y :: ys else y :: insertDescBy key x ys

/-- Model of `rows.sort((a, b) => b.revenue - a.revenue)`: a stable
descending sort (ECMAScript `Array.prototype.sort` is stable). -/
def sortDescBy {α : Type} (key : α → Int) : List α → List α
  | [] => []
  | x :: xs => insertDescBy key x (sortDescBy key xs)

/-- The block-scanning loop of part_034 lines 72–87: scan maximal runs of
equal revenue, give the whole run the rank of its first position, and give
each member the average of `pointFor` over the positions the run covers. -/
def rankLoop (n : Nat) : Nat → List StudioTotal → List RankedRow
  | _, [] => []
  | pos, r :: rest =>
    let block := r :: rest.takeWhile (fun x => x.revenue == r.revenue)
    let span := block.length
    let sumPts := (List.range span).foldl (fun a k => a + pointFor n (pos + 1 + k)) 0
    let avgPts := sumPts / (span : ℚ)
    block.map (fun x =>
        { studioId := x.studioId, revenue := x.revenue, rank := pos + 1,
          points := avgPts })
      ++ rankLoop n (pos + span) (rest.dropWhile (fun x => x.revenue == r.revenue))
termination_by _ l => l.length
decreasing_by
  simp_wf
  exact Nat.lt_succ_of_le (List.Sublist.length_le (List.dropWhile_sublist _))

/-- The ranking phase of part_034's `computeWeek`: sort the per-studio rows
descending by revenue (`N` is the number of ranked studios) and run the
block-scanning loop from position 0. -/
def rankStudios (totals : List StudioTotal) : List RankedRow :=
  let rows := sortDescBy (fun t => t.revenue) totals
  rankLoop rows.length 0 rows

/-! ### Revenue attribution with the temporal ownership filter
(src/unnamed/part_034 lines 28–49) -/

/-- The `active` test of part_034 lines 32–34:
`(!o.retiredAt || o.retiredAt >= weekStart) && o.acquiredAt <= weekEnd`. -/
def ownershipActive (ws we : Int) (o : Ownership) : Bool :=
  (match o.retiredAt with
   | none => true
   | some t => ws ≤ t) && (o.acquiredAt ≤ we)

/-- The `ownerByMovie` map of part_034 lines 30–36: every active ownership is
written into the map in order, so a lookup returns the last active ownership
row whose `movieId` matches. -/
def ownerByMovie (ws we : Int) (ownerships : List Ownership) (m : Nat) :
    Option Nat :=
  ownerships.foldl
    (fun acc o =>
      if o.movieId == m && ownershipActive ws we o then some o.studioId else acc)
    none

/-- A `Map.set`-style accumulation of an amount under a studio key: an existing
key is updated in place, a new key is appended. -/
def bumpTotal : List (Nat × Int) → Nat → Int → List (Nat × Int)
  | [], sid, amt => [(sid, amt)]
  | (k, v) :: rest, sid, amt =>
    if k == sid then (k, v + amt) :: rest else (k, v) :: bumpTotal rest sid amt

/-- The `studioTotals` accumulation of part_034 lines 42–49: each revenue row
whose movie has a mapped owner adds its `domesticGross` to that studio's
total; rows of unmapped movies are skipped. -/
def studioTotals034 (ws we : Int) (ownerships : List Ownership)
    (revs : List RevenueRow) : List (Nat × Int) :=
  revs.foldl
    (fun acc r =>
      match ownerByMovie ws we ownerships r.movieId with
      | none => acc
      | some sid => bumpTotal acc sid r.domesticGross)
    []

/-! ### Refactored compute controller pipeline
(src/src/controllers/compute.ts lines 89–175) -/

/-- The table `POINTS_TABLE_OPTION_B = [10, 8, 6, 5, 4, 3, 2, 1]` (compute.ts line 21). -/
def pointsTableOptionB : List ℚ := [10, 8, 6, 5, 4, 3, 2, 1]

/-- The `movieToStudio` map of compute.ts lines 96–99: every ownership row is
written with `Map.set` and no temporal filter, so the last row per movie
wins. -/
def movieToStudio (ownerships : List Ownership) (m : Nat) : Option Nat :=
  ownerships.foldl
    (fun acc o => if o.movieId == m then some o.studioId else acc) none

/-- The `Map` accumulation of compute.ts lines 111–123: get-or-default, add the
domestic and worldwide gross, and set (an existing key keeps its position, a
new key is appended). -/
def addTotals : List (Nat × Int × Int) → Nat → Int → Int → List (Nat × Int × Int)
  | [], sid, d, w => [(sid, d, w)]
  | (k, dd, ww) :: rest, sid, d, w =>
    if k == sid then (k, dd + d, ww + w) :: rest
    else (k, dd, ww) :: addTotals rest sid d w

/-- The `perStudio` totals of compute.ts step 3: each revenue row with a
mapped owning studio accumulates `(domesticGross, worldwideGross)`; rows of
unmapped movies are skipped. -/
def perStudioTotals (ownerships : List Ownership) (revs : List RevenueRow) :
    List (Nat × Int × Int) :=
  revs.foldl
    (fun acc r =>
      match movieToStudio ownerships r.movieId with
      | none => acc
      | some sid => addTotals acc sid r.domesticGross r.worldwideGross)
    []

/-- Keyed full-overwrite upsert modelling
`findOneAndUpdate(key, { $set: fields }, { upsert: true })`. -/
def upsert {K V : Type} [DecidableEq K] : List (K × V) → K → V → List (K × V)
  | [], k, v => [(k, v)]
  | (k', v') :: rest, k, v =>
    if k' = k then (k, v) :: rest else (k', v') :: upsert rest k v

/-- Apply a list of keyed upserts in order (compute.ts step 4's loop). -/
def applyUpserts {K V : Type} [DecidableEq K] :
    List (K × V) → List (K × V) → List (K × V)
  | store, [] => store
  | store, kv :: rest => applyUpserts (upsert store kv.1 kv.2) rest

/-- Association-list lookup (used only to reason about upserts). -/
def lookupKey {K V : Type} [DecidableEq K] : List (K × V) → K → Option V
  | [], _ => none
  | (k', v') :: rest, k => if k' = k then some v' else lookupKey rest k

/-- The non-key fields written into a `StudioWeeklyRevenue` row
(compute.ts lines 128–140). -/
structure SwrVal where
  leagueId : Nat
  weekStart : Int
  weekEnd : Int
  totalDomesticGross : Int
  totalWorldwideGross : Int
deriving DecidableEq, Repr

/-- One `WeeklyRanking` row (compute.ts lines 158–163). -/
structure WrRow where
  studioId : Nat
  rank : Nat
  points : ℚ
  revenue : Int
deriving DecidableEq, Repr

/-- The derived-snapshot store: `StudioWeeklyRevenue` keyed by
`(seasonId, weekIndex, studioId)` and `WeeklyRanking` keyed by
`(seasonId, weekIndex)`, each with full-overwrite non-key fields. -/
structure Store where
  swr : List ((Nat × Nat × Nat) × SwrVal)
  wr : List ((Nat × Nat) × (Nat × List WrRow))
deriving DecidableEq

/-- The inputs `computeWeek` reads: season, league config and the two fact
collections. -/
structure ComputeInputs where
  seasonId : Nat
  leagueId : Nat
  startDate : Int
  ownerships : List Ownership
  revenues : List RevenueRow
  pointsTable : List ℚ

/-- The revenue rows whose `weekStart` lies in the computed window
(compute.ts lines 102–104, `$gte`/`$lte`). -/
def weekRevenues (inp : ComputeInputs) (weekIndex : Nat) : List RevenueRow :=
  let win := computeWeekWindow inp.startDate weekIndex
  inp.revenues.filter
    (fun r => win.weekStart ≤ r.weekStart ∧ r.weekStart ≤ win.weekEnd)

/-- The per-studio totals computed for one week. -/
def perStudioOf (inp : ComputeInputs) (weekIndex : Nat) :
    List (Nat × Int × Int) :=
  perStudioTotals inp.ownerships (weekRevenues inp weekIndex)

/-- Model of `ranked.map((row, i) => ({ studioId, rank: i + 1,
points: pointsTable[i] ?? 0, revenue }))` (compute.ts lines 158–163). -/
def buildRows (table : List ℚ) : Nat → List (Nat × Int) → List WrRow
  | _, [] => []
  | i, p :: rest =>
    { studioId := p.1, rank := i + 1, points := table.getD i 0,
      revenue := p.2 } :: buildRows table (i + 1) rest

/-- Step 5 of compute.ts: map the totals to `{studioId, revenue:
totalWorldwide}`, sort descending by revenue, and assign sequential ranks
with points from the table. -/
def computeRankingRows (inp : ComputeInputs) (weekIndex : Nat) : List WrRow :=
  buildRows inp.pointsTable 0
    (sortDescBy (fun p => p.2)
      ((perStudioOf inp weekIndex).map (fun e => (e.1, e.2.2))))

/-- The keyed `StudioWeeklyRevenue` upserts of compute.ts step 4. -/
def computeSwrUpserts (inp : ComputeInputs) (weekIndex : Nat) :
    List ((Nat × Nat × Nat) × SwrVal) :=
  let win := computeWeekWindow inp.startDate weekIndex
  (perStudioOf inp weekIndex).map
    (fun e =>
      ((inp.seasonId, weekIndex, e.1),
        { leagueId := inp.leagueId, weekStart := win.weekStart,
          weekEnd := win.weekEnd, totalDomesticGross := e.2.1,
          totalWorldwideGross := e.2.2 }))

/-- The whole derived-write phase of `computeWeek`: upsert one
`StudioWeeklyRevenue` row per studio and the one `WeeklyRanking` row. -/
def computeWeekCtrl (inp : ComputeInputs) (weekIndex : Nat) (st : Store) :
    Store :=
  { swr := applyUpserts st.swr (computeSwrUpserts inp weekIndex),
    wr := upsert st.wr (inp.seasonId, weekIndex)
      (inp.leagueId, computeRankingRows inp weekIndex) }

/-- Concrete `computeWeek` inputs for the spec's end-to-end example: one
movie (id 7) owned by studio 4, one revenue row with `domesticGross` 300 and
`worldwideGross` 1000 at the season start, default points table. -/
def c8Inputs : ComputeInputs :=
  { seasonId := 1
    leagueId := 1
    startDate := 0
    ownerships := [⟨1, 1, 1, 4, 7, 10, 0, none, false⟩]
    revenues := [⟨7, 0, 100, 300, 1000⟩]
    pointsTable := pointsTableOptionB }

/-! ### Ownership controller
(src/src/controllers/ownership.ts, createOwnership lines 26–141 and
retireOwnership lines 283–343) -/

/-- The caller-visible error taxonomy (HTTP statuses of the controllers). -/
inductive ApiError where
  | unauthorized
  | notFound
  | forbidden
  | conflict
  | badRequest
deriving DecidableEq, Repr

/-- The collections the ownership controller reads: seasons and studios as
`(id, leagueId)` pairs, studio memberships as `(studioId, userId)` pairs,
movie ids, and the `MovieOwnership` collection. -/
structure Db where
  seasons : List (Nat × Nat)
  studios : List (Nat × Nat)
  studioOwners : List (Nat × Nat)
  movies : List Nat
  ownerships : List Ownership
deriving DecidableEq, Repr

/-- The body of a `POST /api/ownership` request. -/
structure AcquireReq where
  leagueId : Nat
  seasonId : Nat
  studioId : Nat
  movieId : Nat
  purchasePrice : Int
  acquiredAt : Int
deriving DecidableEq, Repr

/-- Model of `createOwnership`: auth, season-in-league, studio-in-league, studio
membership and movie checks in source order, then the conflict check —
`findOne({seasonId, movieId})` with no condition on `retiredAt` or on the
acting studio — and finally the insert (`newId` stands for the generated
`_id`).  Errors leave the store untouched. -/
def createOwnership (db : Db) (userId : Option Nat) (req : AcquireReq)
    (newId : Nat) : (Except ApiError Ownership) × Db :=
  match userId with
  | none => (.error .unauthorized, db)
  | some uid =>
    if (req.seasonId, req.leagueId) ∉ db.seasons then (.error .notFound, db)
    else if (req.studioId, req.leagueId) ∉ db.studios then
      (.error .notFound, db)
    else if (req.studioId, uid) ∉ db.studioOwners then (.error .forbidden, db)
    else if req.movieId ∉ db.movies then (.error .notFound, db)
    else if db.ownerships.any
        (fun o => o.seasonId == req.seasonId && o.movieId == req.movieId) then
      (.error .conflict, db)
    else
      let o : Ownership :=
        ⟨newId, req.leagueId, req.seasonId, req.studioId, req.movieId,
          req.purchasePrice, req.acquiredAt, none, false⟩
      (.ok o, { db with ownerships := db.ownerships ++ [o] })

/-- Model of `retireOwnership`: find by id, reject an already-retired row as a
Conflict before anything else mutates, check membership, then set
`retiredAt` to the current time.  Errors leave the store untouched. -/
def retireOwnership (db : Db) (userId : Option Nat) (ownershipId : Nat)
    (now : Int) : (Except ApiError Ownership) × Db :=
  match userId with
  | none => (.error .unauthorized, db)
  | some uid =>
    match db.ownerships.find? (fun o => o.id == ownershipId) with
    | none => (.error .notFound, db)
    | some o =>
      if o.retiredAt.isSome then (.error .conflict, db)
      else if (o.studioId, uid) ∉ db.studioOwners then (.error .forbidden, db)
      else
        let o2 := { o with retiredAt := some now }
        (.ok o2,
          { db with ownerships :=
              db.ownerships.map (fun x => if x.id == ownershipId then o2 else x) })

/-- Acquire-conflict database for the C5 witness: movie 7 already owned. -/
def c5Db : Db :=
  { seasons := [(1, 1)]
    studios := [(4, 1), (5, 1)]
    studioOwners := [(4, 9), (5, 11)]
    movies := [7, 8]
    ownerships := [⟨1, 1, 1, 4, 7, 10, 0, none, false⟩] }

/-- Retire-conflict database for the C5 witness: ownership 2 already
retired. -/
def c5DbRetired : Db :=
  { seasons := [(1, 1)]
    studios := [(4, 1)]
    studioOwners := [(4, 9)]
    movies := [8]
    ownerships := [⟨2, 1, 1, 4, 8, 10, 0, some 50, false⟩] }

/-! ### Award controller (src/src/controllers/award.ts lines 22–158) -/

/-- One entry of `league.awardCategories`. -/
structure AwardCategory where
  key : Nat
  enabled : Bool
  nominationPoints : Int
  winPoints : Int
deriving DecidableEq, Repr

/-- The `result` field, `"nom" | "win"`. -/
inductive AwardResult where
  | nom
  | win
deriving DecidableEq, Repr

/-- An `AwardBonus` document (src/unnamed/part_026). -/
structure AwardBonus where
  leagueId : Nat
  seasonId : Nat
  studioId : Nat
  movieId : Nat
  categoryKey : Nat
  result : AwardResult
  points : Int
deriving DecidableEq, Repr

/-- The league fields the award controller reads. -/
structure LeagueCfg where
  ownerId : Nat
  commissionerIds : List Nat
  awardCategories : List AwardCategory
deriving DecidableEq, Repr

/-- Model of `points = result === 'win' ? cfg.winPoints : cfg.nominationPoints`. -/
def awardPoints (cfg : AwardCategory) (result : AwardResult) : Int :=
  match result with
  | .win => cfg.winPoints
  | .nom => cfg.nominationPoints

/-- The row `AwardBonusModel.create` inserts (award.ts lines 130–138). -/
def awardRow (leagueId seasonId studioId movieId categoryKey : Nat)
    (result : AwardResult) (points : Int) : AwardBonus :=
  ⟨leagueId, seasonId, studioId, movieId, categoryKey, result, points⟩

/-- Model of `applyAwardBonus`: auth, season and league lookups, owner/commissioner
authorization, enabled-category lookup, owning-studio resolution by
`findOne({seasonId, movieId})` — no condition on `retiredAt` — the
exact-tuple conflict check, and the insert.  Errors leave the bonus ledger
untouched. -/
def applyAwardBonus (seasons : List (Nat × Nat))
    (leagues : List (Nat × LeagueCfg)) (ownerships : List Ownership)
    (bonuses : List AwardBonus) (userId : Option Nat)
    (seasonId categoryKey movieId : Nat) (result : AwardResult) :
    (Except ApiError Int) × List AwardBonus :=
  match userId with
  | none => (.error .unauthorized, bonuses)
  | some uid =>
    match seasons.find? (fun s => s.1 == seasonId) with
    | none => (.error .notFound, bonuses)
    | some season =>
      match leagues.find? (fun l => l.1 == season.2) with
      | none => (.error .notFound, bonuses)
      | some lg =>
        if ¬ (lg.2.ownerId = uid ∨ uid ∈ lg.2.commissionerIds) then
          (.error .forbidden, bonuses)
        else
          match lg.2.awardCategories.find?
              (fun c => c.key == categoryKey && c.enabled) with
          | none => (.error .badRequest, bonuses)
          | some cfg =>
            match ownerships.find?
                (fun o => o.seasonId == seasonId && o.movieId == movieId) with
            | none => (.error .badRequest, bonuses)
            | some own =>
              if bonuses.any (fun b => b.seasonId == seasonId &&
                  b.studioId == own.studioId && b.movieId == movieId &&
                  b.categoryKey == categoryKey && b.result == result) then
                (.error .conflict, bonuses)
              else
                (.ok (awardPoints cfg result),
                  bonuses ++ [awardRow season.2 seasonId own.studioId movieId
                    categoryKey result (awardPoints cfg result)])

/-! ### Theorems -/

/-- C4: for every season start and every integer weekIndex ≥ 0 the window
satisfies weekEnd − weekStart = 7 days − 1 ms, and consecutive windows are
adjacent: week(i+1).weekStart = week(i).weekEnd + 1 ms. -/
theorem computeWeekWindow_span_and_adjacent
    (start : Int) (weekIndex : Int) (h : 0 ≤ weekIndex) :
    (computeWeekWindow start weekIndex).weekEnd -
        (computeWeekWindow start weekIndex).weekStart = msPerWeek - 1 ∧
    (computeWeekWindow start (weekIndex + 1)).weekStart =
        (computeWeekWindow start weekIndex).weekEnd + 1 := by
  constructor
  · simp only [computeWeekWindow]
    ring
  · simp only [computeWeekWindow]
    ring

/-- Witness for `computeWeekWindow_span_and_adjacent` at start 17, week 3. -/
theorem computeWeekWindow_span_and_adjacent_witness :
    (computeWeekWindow 17 3).weekEnd - (computeWeekWindow 17 3).weekStart =
        msPerWeek - 1 ∧
    (computeWeekWindow 17 (3 + 1)).weekStart =
        (computeWeekWindow 17 3).weekEnd + 1 :=
  computeWeekWindow_span_and_adjacent 17 3 (by decide)

/-- C2: the guard in the source does NOT deny every instant from Thursday
20:00 through Monday — it allows Thursday (Luxon weekday 4) at hour 20 and
Friday (Luxon weekday 5) at hour 10, because the `weekday === 4` disjunct has
no hour bound and the `weekday === 5 && hour < 20` disjunct admits Friday
mornings; Saturday 10:00 is denied and Wednesday 10:00 allowed as claimed. -/
theorem acquisitionAllowed_bug :
    acquisitionAllowed 4 20 = true ∧
    acquisitionAllowed 5 10 = true ∧
    acquisitionAllowed 6 10 = false ∧
    acquisitionAllowed 3 10 = true := by
  decide

theorem insertDescBy_perm {α : Type} (key : α → Int) (x : α) (l : List α) :
    (insertDescBy key x l).Perm (x :: l) := by
  induction l with
  | nil => simp [insertDescBy]
  | cons y ys ih =>
    simp only [insertDescBy]
    by_cases h : key y ≤ key x
    · simp [h]
    · simp only [h, if_neg, if_false]
      exact (ih.cons y).trans (List.Perm.swap x y ys)

theorem sortDescBy_perm {α : Type} (key : α → Int) (l : List α) :
    (sortDescBy key l).Perm l := by
  induction l with
  | nil => simp [sortDescBy]
  | cons x xs ih =>
    exact (insertDescBy_perm key x (sortDescBy key xs)).trans (ih.cons x)

theorem mem_insertDescBy {α : Type} {key : α → Int} {x z : α} {l : List α} :
    z ∈ insertDescBy key x l ↔ z = x ∨ z ∈ l := by
  constructor
  · intro h
    have := (insertDescBy_perm key x l).mem_iff.mp h
    simpa using this
  · intro h
    apply (insertDescBy_perm key x l).mem_iff.mpr
    simpa using h

theorem insertDescBy_pairwise {α : Type} {key : α → Int} {x : α} {l : List α}
    (h : l.Pairwise (fun a b => key b ≤ key a)) :
    (insertDescBy key x l).Pairwise (fun a b => key b ≤ key a) := by
  induction l with
  | nil => simp [insertDescBy]
  | cons y ys ih =>
    rcases List.pairwise_cons.mp h with ⟨hy, hys⟩
    simp only [insertDescBy]
    by_cases hxy : key y ≤ key x
    · rw [if_pos hxy]
      refine List.pairwise_cons.mpr ⟨?_, h⟩
      intro z hz
      rcases List.mem_cons.mp hz with rfl | hz
      · exact hxy
      · exact le_trans (hy z hz) hxy
    · rw [if_neg hxy]
      refine List.pairwise_cons.mpr ⟨?_, ih hys⟩
      intro z hz
      rcases mem_insertDescBy.mp hz with rfl | hz
      · exact le_of_lt (lt_of_not_le hxy)
      · exact hy z hz

theorem sortDescBy_pairwise {α : Type} (key : α → Int) (l : List α) :
    (sortDescBy key l).Pairwise (fun a b => key b ≤ key a) := by
  induction l with
  | nil => simp [sortDescBy]
  | cons x xs ih => exact insertDescBy_pairwise ih

theorem foldl_add_range (f : Nat → ℚ) (n : Nat) :
    (List.range n).foldl (fun a k => a + f k) 0 = ∑ k ∈ Finset.range n, f k := by
  induction n with
  | zero => simp
  | succ m ih =>
    rw [List.range_succ, List.foldl_append, ih, Finset.sum_range_succ]
    simp

theorem takeWhile_rev_eq {r t : StudioTotal} {l : List StudioTotal}
    (ht : t ∈ l.takeWhile (fun x => x.revenue == r.revenue)) :
    t.revenue = r.revenue := by
  have := List.mem_takeWhile_imp ht
  simpa using this

theorem dropWhile_rev_lt (r : StudioTotal) (l : List StudioTotal)
    (hs : l.Pairwise (fun a b => b.revenue ≤ a.revenue))
    (hub : ∀ t ∈ l, t.revenue ≤ r.revenue) :
    ∀ t ∈ l.dropWhile (fun x => x.revenue == r.revenue),
      t.revenue < r.revenue := by
  induction l with
  | nil => simp
  | cons y ys ih =>
    rcases List.pairwise_cons.mp hs with ⟨hy, hys⟩
    by_cases hp : y.revenue = r.revenue
    · rw [List.dropWhile_cons_of_pos (by simpa using hp)]
      exact ih hys (fun t ht => le_trans (hy t ht) (le_of_eq hp))
    · rw [List.dropWhile_cons_of_neg (by simpa using hp)]
      intro t ht
      rcases List.mem_cons.mp ht with rfl | ht
      · exact lt_of_le_of_ne (hub _ (List.mem_cons_self _ _)) hp
      · exact lt_of_le_of_lt (hy t ht)
          (lt_of_le_of_ne (hub y (List.mem_cons_self y ys)) hp)

/-- Characterization of the block-scanning loop on a descending-sorted list:
every output row has the revenue of some input row, its rank is the start
position of its run plus one (one more than the number of strictly richer
input rows), and its points are the average of `pointFor` over the positions
the run covers. -/
theorem rankLoop_char (n : Nat) (pos : Nat) (rows : List StudioTotal)
    (hs : rows.Pairwise (fun a b => b.revenue ≤ a.revenue)) :
    ∀ x ∈ rankLoop n pos rows,
      (∃ t ∈ rows, t.revenue = x.revenue) ∧
      x.rank = pos + 1 + rows.countP (fun t => x.revenue < t.revenue) ∧
      x.points =
        (∑ k ∈ Finset.range (rows.countP (fun t => t.revenue == x.revenue)),
            pointFor n (x.rank + k)) /
          (rows.countP (fun t => t.revenue == x.revenue) : ℚ) := by
  match rows with
  | [] => simp [rankLoop]
  | r :: rest =>
    intro x hx
    rcases List.pairwise_cons.mp hs with ⟨hr, hrest⟩
    have hsplit : rest.takeWhile (fun u => u.revenue == r.revenue) ++
        rest.dropWhile (fun u => u.revenue == r.revenue) = rest :=
      List.takeWhile_append_dropWhile _ _
    have hrc : ∀ p : StudioTotal → Bool, rest.countP p =
        (rest.takeWhile (fun u => u.revenue == r.revenue)).countP p +
        (rest.dropWhile (fun u => u.revenue == r.revenue)).countP p := by
      intro p
      conv_lhs => rw [← hsplit]
      rw [List.countP_append]
    have hdwlt : ∀ t ∈ rest.dropWhile (fun u => u.revenue == r.revenue),
        t.revenue < r.revenue :=
      dropWhile_rev_lt r rest hrest hr
    have hdwpw : (rest.dropWhile (fun u => u.revenue == r.revenue)).Pairwise
        (fun a b => b.revenue ≤ a.revenue) :=
      hrest.sublist (List.dropWhile_sublist _)
    simp only [rankLoop] at hx
    rcases List.mem_append.mp hx with hb | hrec
    · -- x is in the leading block: revenue r.revenue, rank pos + 1
      rcases List.mem_map.mp hb with ⟨t, ht, rfl⟩
      have hrev : t.revenue = r.revenue := by
        rcases List.mem_cons.mp ht with rfl | ht
        · rfl
        · exact takeWhile_rev_eq ht
      have hlt0 : (r :: rest).countP
          (fun u => decide (t.revenue < u.revenue)) = 0 := by
        apply List.countP_eq_zero.mpr
        intro a ha
        rcases List.mem_cons.mp ha with rfl | ha
        · simp [hrev]
        · simp only [decide_eq_true_eq]
          exact not_lt_of_le (le_trans (hr a ha) (le_of_eq hrev.symm))
      have hcq : (r :: rest).countP (fun u => u.revenue == t.revenue) =
          (rest.takeWhile (fun u => u.revenue == r.revenue)).length + 1 := by
        rw [List.countP_cons, hrc]
        have h1 : (rest.takeWhile (fun u => u.revenue == r.revenue)).countP
            (fun u => u.revenue == t.revenue) =
            (rest.takeWhile (fun u => u.revenue == r.revenue)).length := by
          apply List.countP_eq_length.mpr
          intro a ha
          simp [takeWhile_rev_eq ha, hrev]
        have h2 : (rest.dropWhile (fun u => u.revenue == r.revenue)).countP
            (fun u => u.revenue == t.revenue) = 0 := by
          apply List.countP_eq_zero.mpr
          intro a ha
          have := hdwlt a ha
          simp only [beq_iff_eq]
          omega
        rw [h1, h2, hrev]
        simp
      refine ⟨⟨r, List.mem_cons_self r rest, hrev.symm⟩, ?_, ?_⟩
      · simp [hlt0]
      · simp only [hcq, List.length_cons]
        rw [foldl_add_range]
    · -- x comes from the recursive call on the strictly poorer suffix
      have IH := rankLoop_char n
        (pos + (r :: rest.takeWhile (fun u => u.revenue == r.revenue)).length)
        (rest.dropWhile (fun u => u.revenue == r.revenue)) hdwpw x hrec
      rcases IH with ⟨⟨t, htdw, htrev⟩, hrank, hpts⟩
      have hxlt : x.revenue < r.revenue := htrev ▸ hdwlt t htdw
      have hcnt : (r :: rest).countP (fun u => decide (x.revenue < u.revenue)) =
          (rest.takeWhile (fun u => u.revenue == r.revenue)).length + 1 +
          (rest.dropWhile (fun u => u.revenue == r.revenue)).countP
            (fun u => decide (x.revenue < u.revenue)) := by
        rw [List.countP_cons, hrc]
        have h1 : (rest.takeWhile (fun u => u.revenue == r.revenue)).countP
            (fun u => decide (x.revenue < u.revenue)) =
            (rest.takeWhile (fun u => u.revenue == r.revenue)).length := by
          apply List.countP_eq_length.mpr
          intro a ha
          have := takeWhile_rev_eq ha
          simp only [decide_eq_true_eq]
          omega
        rw [h1]
        simp only [decide_eq_true_eq]
        rw [if_pos hxlt]
        omega
      have hceq : (r :: rest).countP (fun u => u.revenue == x.revenue) =
          (rest.dropWhile (fun u => u.revenue == r.revenue)).countP
            (fun u => u.revenue == x.revenue) := by
        rw [List.countP_cons, hrc]
        have h1 : (rest.takeWhile (fun u => u.revenue == r.revenue)).countP
            (fun u => u.revenue == x.revenue) = 0 := by
          apply List.countP_eq_zero.mpr
          intro a ha
          have := takeWhile_rev_eq ha
          simp only [beq_iff_eq]
          omega
        have h2 : ¬ ((r.revenue == x.revenue) = true) := by
          simp only [beq_iff_eq]
          omega
        rw [h1, if_neg h2]
        simp
      refine ⟨⟨t, ?_, htrev⟩, ?_, ?_⟩
      · exact List.mem_cons_of_mem r (hsplit ▸ List.mem_append_right _ htdw)
      · rw [hcnt]
        simp only [List.length_cons] at hrank
        omega
      · rw [hceq]
        exact hpts
termination_by rows.length
decreasing_by
  simp_wf
  exact Nat.lt_succ_of_le (List.Sublist.length_le (List.dropWhile_sublist _))

/-- Characterization of `rankStudios` over the unsorted input totals: counts
of strictly richer and equal-revenue studios are permutation-invariant. -/
theorem rankStudios_char (totals : List StudioTotal) :
    ∀ x ∈ rankStudios totals,
      (∃ t ∈ totals, t.revenue = x.revenue) ∧
      x.rank = 1 + totals.countP (fun t => x.revenue < t.revenue) ∧
      x.points =
        (∑ k ∈ Finset.range (totals.countP (fun t => t.revenue == x.revenue)),
            pointFor totals.length (x.rank + k)) /
          (totals.countP (fun t => t.revenue == x.revenue) : ℚ) := by
  intro x hx
  simp only [rankStudios] at hx
  have hperm : (sortDescBy (fun t => t.revenue) totals).Perm totals :=
    sortDescBy_perm _ _
  have hchar := rankLoop_char (sortDescBy (fun t => t.revenue) totals).length 0
    (sortDescBy (fun t => t.revenue) totals)
    (sortDescBy_pairwise _ _) x hx
  rcases hchar with ⟨⟨t, ht, htrev⟩, hrank, hpts⟩
  refine ⟨⟨t, hperm.mem_iff.mp ht, htrev⟩, ?_, ?_⟩
  · rw [hrank, hperm.countP_eq]
  · rw [hpts, hperm.countP_eq, hperm.length_eq]

/-- C1: under the tie-aware ranking engine, studios with exactly equal
ranking revenue receive the same rank — one more than the number of strictly
richer studios, i.e. the lowest position of their tied block — and each
receives the arithmetic mean of `pointFor` over the positions the block
spans; in particular revenues [100, 100, 50] give ranks [1, 1, 3] with the
tied studios each receiving (pointFor 1 + pointFor 2) / 2 and the third
receiving pointFor 3. -/
theorem rankStudios_tie_sharing :
    (∀ (totals : List StudioTotal), ∀ x ∈ rankStudios totals,
        ∀ y ∈ rankStudios totals,
          x.revenue = y.revenue → x.rank = y.rank ∧ x.points = y.points) ∧
    (∀ (totals : List StudioTotal), ∀ x ∈ rankStudios totals,
        x.rank = 1 + totals.countP (fun t => x.revenue < t.revenue) ∧
        x.points =
          (∑ k ∈ Finset.range (totals.countP (fun t => t.revenue == x.revenue)),
              pointFor totals.length (x.rank + k)) /
            (totals.countP (fun t => t.revenue == x.revenue) : ℚ)) ∧
    rankStudios [⟨1, 100⟩, ⟨2, 100⟩, ⟨3, 50⟩] =
      [⟨1, 100, 1, (pointFor 3 1 + pointFor 3 2) / 2⟩,
       ⟨2, 100, 1, (pointFor 3 1 + pointFor 3 2) / 2⟩,
       ⟨3, 50, 3, pointFor 3 3⟩] := by
  refine ⟨?_, ?_, ?_⟩
  · intro totals x hx y hy hrev
    rcases rankStudios_char totals x hx with ⟨-, hxr, hxp⟩
    rcases rankStudios_char totals y hy with ⟨-, hyr, hyp⟩
    have hr : x.rank = y.rank := by rw [hxr, hyr, hrev]
    refine ⟨hr, ?_⟩
    rw [hxp, hyp, hrev, hr]
  · intro totals x hx
    exact (rankStudios_char totals x hx).2
  · show rankStudios [⟨1, 100⟩, ⟨2, 100⟩, ⟨3, 50⟩] = _
    simp only [rankStudios, sortDescBy, insertDescBy, rankLoop]
    norm_num [rankLoop, pointFor, List.range_succ]

/-- Witness: in the [100, 100, 50] instance the two tied studios share rank
and points. -/
theorem rankStudios_tie_sharing_witness :
    (⟨1, 100, 1, (pointFor 3 1 + pointFor 3 2) / 2⟩ : RankedRow).rank =
        (⟨2, 100, 1, (pointFor 3 1 + pointFor 3 2) / 2⟩ : RankedRow).rank ∧
    (⟨1, 100, 1, (pointFor 3 1 + pointFor 3 2) / 2⟩ : RankedRow).points =
        (⟨2, 100, 1, (pointFor 3 1 + pointFor 3 2) / 2⟩ : RankedRow).points := by
  apply rankStudios_tie_sharing.1 [⟨1, 100⟩, ⟨2, 100⟩, ⟨3, 50⟩]
  · rw [rankStudios_tie_sharing.2.2]
    simp
  · rw [rankStudios_tie_sharing.2.2]
    simp
  · rfl

theorem rankLoop_points_sum_nodup (n : Nat) (pos : Nat)
    (rows : List StudioTotal)
    (hnd : (rows.map (fun t => t.revenue)).Nodup) :
    ((rankLoop n pos rows).map (fun r => r.points)).sum =
      ∑ k ∈ Finset.range rows.length, pointFor n (pos + 1 + k) := by
  match rows with
  | [] => simp [rankLoop]
  | r :: rest =>
    have hnd2 := List.nodup_cons.mp
      (show (r.revenue :: rest.map (fun t => t.revenue)).Nodup by
        simpa using hnd)
    have hnotin : ∀ t ∈ rest, ¬ t.revenue = r.revenue := by
      intro t ht hc
      exact hnd2.1 (hc ▸ List.mem_map_of_mem (fun u => u.revenue) ht)
    have htw : rest.takeWhile (fun u => u.revenue == r.revenue) = [] := by
      cases rest with
      | nil => rfl
      | cons b bs =>
        rw [List.takeWhile_cons_of_neg]
        simp only [beq_iff_eq]
        exact hnotin b (List.mem_cons_self _ _)
    have hdw : rest.dropWhile (fun u => u.revenue == r.revenue) = rest := by
      cases rest with
      | nil => rfl
      | cons b bs =>
        rw [List.dropWhile_cons_of_neg]
        simp only [beq_iff_eq]
        exact hnotin b (List.mem_cons_self _ _)
    have IH := rankLoop_points_sum_nodup n (pos + 1) rest hnd2.2
    simp only [rankLoop, htw, hdw, List.length_cons, List.length_nil,
      List.map_cons, List.map_nil, List.map_append, List.sum_append,
      List.sum_cons, List.sum_nil, List.range_succ, List.range_zero,
      List.foldl_cons, List.foldl_nil, List.nil_append, List.append_nil,
      IH]
    rw [Finset.sum_range_succ']
    have hshift : ∀ k, pointFor n (pos + 1 + (k + 1)) =
        pointFor n (pos + 1 + 1 + k) := by
      intro k
      have : pos + 1 + (k + 1) = pos + 1 + 1 + k := by omega
      rw [this]
    rw [Finset.sum_congr rfl (fun k _ => hshift k)]
    simp only [zero_add, div_one]
    ring

theorem two_mul_sum_range_cast (n : Nat) :
    2 * (∑ k ∈ Finset.range n, (k : ℚ)) = (n : ℚ) ^ 2 - n := by
  induction n with
  | zero => simp
  | succ m ih =>
    rw [Finset.sum_range_succ, mul_add, ih]
    push_cast
    ring

theorem sum_pointFor_range (n : Nat) :
    ∑ k ∈ Finset.range n, pointFor n (1 + k) = (n : ℚ) * (n + 1) := by
  have h1 : ∀ k : Nat, pointFor n (1 + k) = 2 * (n : ℚ) - 2 * (k : ℚ) := by
    intro k
    simp only [pointFor]
    push_cast
    ring
  rw [Finset.sum_congr rfl (fun k _ => h1 k), Finset.sum_sub_distrib,
    Finset.sum_const, Finset.card_range, nsmul_eq_mul, ← Finset.mul_sum]
  nlinarith [two_mul_sum_range_cast n]

/-- C9: with pairwise-distinct revenues the points assigned by the linear
formula over the N ranking rows sum to exactly N × (N + 1). -/
theorem rankStudios_points_sum (totals : List StudioTotal)
    (hnd : (totals.map (fun t => t.revenue)).Nodup) :
    ((rankStudios totals).map (fun r => r.points)).sum =
      (totals.length : ℚ) * (totals.length + 1) := by
  have hperm : (sortDescBy (fun t => t.revenue) totals).Perm totals :=
    sortDescBy_perm _ _
  have hnd' : ((sortDescBy (fun t => t.revenue) totals).map
      (fun t => t.revenue)).Nodup :=
    ((hperm.map (fun t => t.revenue)).nodup_iff).mpr hnd
  have h := rankLoop_points_sum_nodup
    (sortDescBy (fun t => t.revenue) totals).length 0
    (sortDescBy (fun t => t.revenue) totals) hnd'
  simp only [rankStudios, h, Nat.zero_add]
  have hz : ∀ k : Nat, (0 : Nat) + 1 + k = 1 + k := by intro k; omega
  rw [Finset.sum_congr rfl (fun k _ => by rw [hz k]),
    sum_pointFor_range, hperm.length_eq]

/-- Witness for `rankStudios_points_sum` on three studios with distinct
revenues 30, 20, 10: the points sum to 3 × 4. -/
theorem rankStudios_points_sum_witness :
    (([⟨1, 30⟩, ⟨2, 20⟩, ⟨3, 10⟩] : List StudioTotal).map
        (fun t => t.revenue)).Nodup ∧
    ((rankStudios [⟨1, 30⟩, ⟨2, 20⟩, ⟨3, 10⟩]).map (fun r => r.points)).sum =
      (3 : ℚ) * (3 + 1) := by
  refine ⟨by decide, ?_⟩
  have h := rankStudios_points_sum [⟨1, 30⟩, ⟨2, 20⟩, ⟨3, 10⟩] (by decide)
  simpa using h

theorem ownerByMovie_some_of_foldl {ws we : Int} {m s : Nat} :
    ∀ (os : List Ownership) (acc : Option Nat),
      os.foldl
          (fun acc o =>
            if o.movieId == m && ownershipActive ws we o then some o.studioId
            else acc)
          acc = some s →
      (∃ o ∈ os, o.movieId = m ∧ o.studioId = s ∧
        ownershipActive ws we o = true) ∨ acc = some s := by
  intro os
  induction os with
  | nil =>
    intro acc h
    exact Or.inr h
  | cons o rest ih =>
    intro acc h
    rcases ih _ h with hex | hstep
    · rcases hex with ⟨o', ho', h1, h2, h3⟩
      exact Or.inl ⟨o', List.mem_cons_of_mem o ho', h1, h2, h3⟩
    · beta_reduce at hstep
      by_cases hc : (o.movieId == m && ownershipActive ws we o) = true
      · rw [if_pos hc] at hstep
        rcases (Bool.and_eq_true _ _).mp hc with ⟨hm, ha⟩
        refine Or.inl ⟨o, List.mem_cons_self _ _, by simpa using hm,
          by simpa using hstep, ha⟩
      · rw [if_neg hc] at hstep
        exact Or.inr hstep

theorem ownerByMovie_none_of_inactive {ws we : Int} {m : Nat}
    {os : List Ownership}
    (h : ∀ o ∈ os, o.movieId = m → ownershipActive ws we o = false) :
    ownerByMovie ws we os m = none := by
  unfold ownerByMovie
  induction os with
  | nil => rfl
  | cons o rest ih =>
    have hstep : (if o.movieId == m && ownershipActive ws we o
        then some o.studioId else (none : Option Nat)) = none := by
      by_cases hm : o.movieId = m
      · rw [if_neg]
        simp [h o (List.mem_cons_self _ _) hm]
      · rw [if_neg]
        simp [hm]
    simp only [List.foldl_cons, hstep]
    exact ih (fun o' ho' => h o' (List.mem_cons_of_mem o ho'))

theorem studioTotals034_skip_unowned {ws we : Int} {m : Nat}
    {os : List Ownership}
    (hnone : ownerByMovie ws we os m = none) :
    ∀ (revs : List RevenueRow) (acc : List (Nat × Int)),
      revs.foldl
          (fun acc r =>
            match ownerByMovie ws we os r.movieId with
            | none => acc
            | some sid => bumpTotal acc sid r.domesticGross)
          acc =
      (revs.filter (fun r => r.movieId != m)).foldl
          (fun acc r =>
            match ownerByMovie ws we os r.movieId with
            | none => acc
            | some sid => bumpTotal acc sid r.domesticGross)
          acc := by
  intro revs
  induction revs with
  | nil => intro acc; rfl
  | cons r rest ih =>
    intro acc
    by_cases hm : r.movieId = m
    · have hfilter : ((r :: rest).filter (fun r => r.movieId != m)) =
          rest.filter (fun r => r.movieId != m) := by
        rw [List.filter_cons_of_neg]
        simp [hm]
      have hskip : (match ownerByMovie ws we os r.movieId with
          | none => acc
          | some sid => bumpTotal acc sid r.domesticGross) = acc := by
        rw [hm, hnone]
      rw [hfilter, List.foldl_cons, hskip]
      exact ih acc
    · have hfilter : ((r :: rest).filter (fun r => r.movieId != m)) =
          r :: rest.filter (fun r => r.movieId != m) := by
        rw [List.filter_cons_of_pos]
        simp [hm]
      rw [hfilter, List.foldl_cons, List.foldl_cons]
      exact ih _

/-- C3: part_034's `computeWeek` credits a movie's revenue to a studio only
through an ownership row passing the temporal test (`acquiredAt ≤ weekEnd`
and `retiredAt` unset or `≥ weekStart`); if every ownership row of a movie
fails the test, that movie's revenue rows contribute to no studio. -/
theorem computeWeek_temporal_attribution (ws we : Int)
    (ownerships : List Ownership) :
    (∀ m s, ownerByMovie ws we ownerships m = some s →
        ∃ o ∈ ownerships, o.movieId = m ∧ o.studioId = s ∧
          ownershipActive ws we o = true) ∧
    (∀ m (revs : List RevenueRow),
        (∀ o ∈ ownerships, o.movieId = m →
            ownershipActive ws we o = false) →
        studioTotals034 ws we ownerships revs =
          studioTotals034 ws we ownerships
            (revs.filter (fun r => r.movieId != m))) := by
  constructor
  · intro m s h
    rcases ownerByMovie_some_of_foldl ownerships none h with hex | hbad
    · exact hex
    · exact absurd hbad (by simp)
  · intro m revs hfail
    exact studioTotals034_skip_unowned
      (ownerByMovie_none_of_inactive hfail) revs []

/-- Witness for `computeWeek_temporal_attribution`: ownership of movie 9 by
studio 5 is active in window [0, 100] and is found, while movie 7's only
ownership was retired before the window, so its revenue is dropped. -/
theorem computeWeek_temporal_attribution_witness :
    (∃ o ∈ [(⟨1, 1, 1, 4, 7, 10, 0, some (-5), false⟩ : Ownership),
            ⟨2, 1, 1, 5, 9, 10, 10, none, false⟩],
        o.movieId = 9 ∧ o.studioId = 5 ∧ ownershipActive 0 100 o = true) ∧
    studioTotals034 0 100
        [⟨1, 1, 1, 4, 7, 10, 0, some (-5), false⟩,
         ⟨2, 1, 1, 5, 9, 10, 10, none, false⟩]
        [⟨7, 0, 100, 40, 60⟩, ⟨9, 0, 100, 30, 50⟩] =
      studioTotals034 0 100
        [⟨1, 1, 1, 4, 7, 10, 0, some (-5), false⟩,
         ⟨2, 1, 1, 5, 9, 10, 10, none, false⟩]
        (([⟨7, 0, 100, 40, 60⟩, ⟨9, 0, 100, 30, 50⟩] : List RevenueRow).filter
          (fun r => r.movieId != 7)) := by
  constructor
  · exact (computeWeek_temporal_attribution 0 100 _).1 9 5 (by decide)
  · exact (computeWeek_temporal_attribution 0 100 _).2 7 _ (by decide)

theorem lookupKey_upsert_self {K V : Type} [DecidableEq K]
    (s : List (K × V)) (k : K) (v : V) :
    lookupKey (upsert s k v) k = some v := by
  induction s with
  | nil => simp [upsert, lookupKey]
  | cons p rest ih =>
    rcases p with ⟨k', v'⟩
    by_cases h : k' = k
    · simp [upsert, h, lookupKey]
    · simp [upsert, h, lookupKey, ih]

theorem lookupKey_upsert_ne {K V : Type} [DecidableEq K]
    (s : List (K × V)) {k' : K} (v' : V) {k : K} (h : k' ≠ k) :
    lookupKey (upsert s k' v') k = lookupKey s k := by
  induction s with
  | nil => simp [upsert, lookupKey, h]
  | cons p rest ih =>
    rcases p with ⟨k0, v0⟩
    by_cases h0 : k0 = k'
    · have hk0 : ¬ k0 = k := by rw [h0]; exact h
      simp [upsert, h0, lookupKey, h, hk0]
    · simp only [upsert, if_neg h0, lookupKey]
      by_cases h1 : k0 = k
      · rw [if_pos h1, if_pos h1]
      · rw [if_neg h1, if_neg h1, ih]

theorem upsert_of_lookupKey {K V : Type} [DecidableEq K]
    {s : List (K × V)} {k : K} {v : V} (h : lookupKey s k = some v) :
    upsert s k v = s := by
  induction s with
  | nil => simp [lookupKey] at h
  | cons p rest ih =>
    rcases p with ⟨k0, v0⟩
    by_cases h0 : k0 = k
    · simp only [lookupKey, if_pos h0] at h
      simp only [upsert, if_pos h0]
      rw [h0]
      injection h with h
      rw [h]
    · simp only [lookupKey, if_neg h0] at h
      simp only [upsert, if_neg h0]
      rw [ih h]

theorem lookupKey_applyUpserts_not_mem {K V : Type} [DecidableEq K]
    {k : K} :
    ∀ (kvs : List (K × V)) (s : List (K × V)),
      k ∉ kvs.map Prod.fst →
      lookupKey (applyUpserts s kvs) k = lookupKey s k := by
  intro kvs
  induction kvs with
  | nil => intro s _; rfl
  | cons kv rest ih =>
    intro s hk
    simp only [List.map_cons, List.mem_cons] at hk
    push_neg at hk
    simp only [applyUpserts]
    rw [ih _ hk.2,
      lookupKey_upsert_ne s kv.2 (show kv.1 ≠ k from fun hc => hk.1 hc.symm)]

theorem applyUpserts_idem {K V : Type} [DecidableEq K] :
    ∀ (kvs : List (K × V)),
      (kvs.map Prod.fst).Nodup →
      ∀ (s : List (K × V)),
        applyUpserts (applyUpserts s kvs) kvs = applyUpserts s kvs := by
  intro kvs
  induction kvs with
  | nil => intro _ s; rfl
  | cons kv rest ih =>
    intro hnd s
    simp only [List.map_cons, List.nodup_cons] at hnd
    have hlk : lookupKey (applyUpserts (upsert s kv.1 kv.2) rest) kv.1 =
        some kv.2 := by
      rw [lookupKey_applyUpserts_not_mem rest _ hnd.1,
        lookupKey_upsert_self]
    simp only [applyUpserts]
    rw [upsert_of_lookupKey hlk]
    exact ih hnd.2 _

theorem upsert_upsert_same {K V : Type} [DecidableEq K]
    (s : List (K × V)) (k : K) (v : V) :
    upsert (upsert s k v) k v = upsert s k v :=
  upsert_of_lookupKey (lookupKey_upsert_self s k v)

theorem addTotals_keys (sid : Nat) (d w : Int) :
    ∀ (acc : List (Nat × Int × Int)),
      (addTotals acc sid d w).map Prod.fst =
        if sid ∈ acc.map Prod.fst then acc.map Prod.fst
        else acc.map Prod.fst ++ [sid] := by
  intro acc
  induction acc with
  | nil => simp [addTotals]
  | cons p rest ih =>
    rcases p with ⟨k, dd, ww⟩
    by_cases h : k = sid
    · simp [addTotals, h]
    · have hb : (k == sid) = false := by simp [h]
      simp only [addTotals, hb, Bool.false_eq_true, if_false, List.map_cons,
        ih]
      by_cases hm : sid ∈ rest.map Prod.fst
      · simp [hm, Ne.symm h]
      · simp [hm, Ne.symm h]

theorem addTotals_keys_nodup {acc : List (Nat × Int × Int)} (sid : Nat)
    (d w : Int) (h : (acc.map Prod.fst).Nodup) :
    ((addTotals acc sid d w).map Prod.fst).Nodup := by
  rw [addTotals_keys]
  by_cases hm : sid ∈ acc.map Prod.fst
  · simpa [hm] using h
  · rw [if_neg hm]
    simp only [List.nodup_append, List.nodup_cons]
    exact ⟨h, by simp, by simpa using hm⟩

theorem perStudioTotals_keys_nodup (ownerships : List Ownership)
    (revs : List RevenueRow) :
    ((perStudioTotals ownerships revs).map Prod.fst).Nodup := by
  have main : ∀ (rs : List RevenueRow) (acc : List (Nat × Int × Int)),
      (acc.map Prod.fst).Nodup →
      ((rs.foldl
          (fun acc r =>
            match movieToStudio ownerships r.movieId with
            | none => acc
            | some sid => addTotals acc sid r.domesticGross r.worldwideGross)
          acc).map Prod.fst).Nodup := by
    intro rs
    induction rs with
    | nil => intro acc h; exact h
    | cons r rest ih =>
      intro acc h
      simp only [List.foldl_cons]
      match hmv : movieToStudio ownerships r.movieId with
      | none => exact ih acc h
      | some sid => exact ih _ (addTotals_keys_nodup sid _ _ h)
  exact main revs [] (by simp)

/-- C6: recomputing a week against unchanged inputs rewrites exactly the rows
the first computation wrote — every derived write is a keyed full-overwrite
upsert, so `computeWeekCtrl` is idempotent on the snapshot store. -/
theorem computeWeek_idempotent (inp : ComputeInputs) (weekIndex : Nat)
    (st : Store) :
    computeWeekCtrl inp weekIndex (computeWeekCtrl inp weekIndex st) =
      computeWeekCtrl inp weekIndex st := by
  have hkeys : ((computeSwrUpserts inp weekIndex).map Prod.fst).Nodup := by
    have h1 : (computeSwrUpserts inp weekIndex).map Prod.fst =
        ((perStudioOf inp weekIndex).map Prod.fst).map
          (fun sid => (inp.seasonId, weekIndex, sid)) := by
      simp [computeSwrUpserts, List.map_map]
    rw [h1]
    apply List.Nodup.map
    · intro a b hab
      simpa using hab
    · exact perStudioTotals_keys_nodup _ _
  simp only [computeWeekCtrl]
  congr 1
  · exact applyUpserts_idem _ hkeys _
  · exact upsert_upsert_same _ _ _

theorem buildRows_mem (table : List ℚ) :
    ∀ (l : List (Nat × Int)) (i : Nat) (x : WrRow),
      x ∈ buildRows table i l →
      ∃ p ∈ l, x.studioId = p.1 ∧ x.revenue = p.2 := by
  intro l
  induction l with
  | nil => intro i x hx; simp [buildRows] at hx
  | cons p rest ih =>
    intro i x hx
    rcases List.mem_cons.mp hx with rfl | hx
    · exact ⟨p, List.mem_cons_self _ _, rfl, rfl⟩
    · rcases ih (i + 1) x hx with ⟨q, hq, h1, h2⟩
      exact ⟨q, List.mem_cons_of_mem p hq, h1, h2⟩

theorem buildRows_pairwise (table : List ℚ) :
    ∀ (l : List (Nat × Int)) (i : Nat),
      l.Pairwise (fun a b => b.2 ≤ a.2) →
      (buildRows table i l).Pairwise (fun a b => b.revenue ≤ a.revenue) := by
  intro l
  induction l with
  | nil => intro i _; simp [buildRows]
  | cons p rest ih =>
    intro i hpw
    rcases List.pairwise_cons.mp hpw with ⟨hp, hrest⟩
    refine List.pairwise_cons.mpr ⟨?_, ih (i + 1) hrest⟩
    intro y hy
    rcases buildRows_mem table rest (i + 1) y hy with ⟨q, hq, -, h2⟩
    simpa [h2] using hp q hq

/-- Evaluation of the end-to-end example under the refactored controller:
the single ranking row carries rank 1, the default table's first entry 10 as
points, and the worldwide gross 1000 as revenue. -/
theorem c8Inputs_rows_eval :
    computeRankingRows c8Inputs 0 =
      [{ studioId := 4, rank := 1, points := 10, revenue := 1000 }] := by
  norm_num [computeRankingRows, perStudioOf, weekRevenues, perStudioTotals,
    movieToStudio, addTotals, sortDescBy, insertDescBy, buildRows,
    pointsTableOptionB, computeWeekWindow, msPerWeek, c8Inputs]

/-- C8 counterexample: the refactored controller's single-movie example row
carries points 10 (the default table's rank-1 entry), not
`pointFor(1) = 2`, so the claimed row `{A, 1, pointFor(1), 1000}` is not
produced. -/
theorem computeWeek_ranking_points_counterexample :
    computeRankingRows c8Inputs 0 =
      [{ studioId := 4, rank := 1, points := 10, revenue := 1000 }] ∧
    computeRankingRows c8Inputs 0 ≠
      [{ studioId := 4, rank := 1, points := pointFor 1 1,
         revenue := 1000 }] := by
  refine ⟨c8Inputs_rows_eval, ?_⟩
  rw [c8Inputs_rows_eval]
  intro hc
  have h10 : (10 : ℚ) = pointFor 1 1 := by
    have := List.head_eq_of_cons_eq hc
    simpa using congrArg WrRow.points this
  rw [pointFor] at h10
  norm_num at h10

/-- C8 amended: the refactored controller orders studios in descending order
of worldwide gross and records each row's revenue as that studio's
accumulated total worldwide gross; the single-movie example with
worldwideGross 1000 yields `{studio 4, rank 1, points 10, revenue 1000}`,
where 10 is the default table's rank-1 entry. -/
theorem computeWeek_ranking_by_worldwide :
    (∀ (inp : ComputeInputs) (weekIndex : Nat),
        (computeRankingRows inp weekIndex).Pairwise
          (fun a b => b.revenue ≤ a.revenue)) ∧
    (∀ (inp : ComputeInputs) (weekIndex : Nat),
        ∀ row ∈ computeRankingRows inp weekIndex,
          ∃ e ∈ perStudioOf inp weekIndex,
            row.studioId = e.1 ∧ row.revenue = e.2.2) ∧
    computeRankingRows c8Inputs 0 =
      [{ studioId := 4, rank := 1, points := 10, revenue := 1000 }] := by
  refine ⟨?_, ?_, c8Inputs_rows_eval⟩
  · intro inp weekIndex
    exact buildRows_pairwise _ _ _ (sortDescBy_pairwise _ _)
  · intro inp weekIndex row hrow
    rcases buildRows_mem _ _ _ _ hrow with ⟨p, hp, h1, h2⟩
    have hp2 : p ∈ (perStudioOf inp weekIndex).map (fun e => (e.1, e.2.2)) :=
      (sortDescBy_perm _ _).mem_iff.mp hp
    rcases List.mem_map.mp hp2 with ⟨e, he, rfl⟩
    exact ⟨e, he, h1, h2⟩

/-- Witness: the example row's studio and revenue come from the accumulated
per-studio worldwide totals. -/
theorem computeWeek_ranking_by_worldwide_witness :
    ∃ e ∈ perStudioOf c8Inputs 0,
      ({ studioId := 4, rank := 1, points := 10, revenue := 1000 } :
        WrRow).studioId = e.1 ∧
      ({ studioId := 4, rank := 1, points := 10, revenue := 1000 } :
        WrRow).revenue = e.2.2 := by
  apply computeWeek_ranking_by_worldwide.2.1 c8Inputs 0
  rw [computeWeek_ranking_by_worldwide.2.2]
  simp

/-- C5: acquisition is rejected as a Conflict with no row created whenever
any ownership row — active or retired, any owning studio — exists for the
`(seasonId, movieId)` pair, and retiring an already-retired ownership is a
Conflict that leaves the row unchanged. -/
theorem ownership_conflicts :
    (∀ (db : Db) (uid : Nat) (req : AcquireReq) (newId : Nat),
        (req.seasonId, req.leagueId) ∈ db.seasons →
        (req.studioId, req.leagueId) ∈ db.studios →
        (req.studioId, uid) ∈ db.studioOwners →
        req.movieId ∈ db.movies →
        (∃ o ∈ db.ownerships,
            o.seasonId = req.seasonId ∧ o.movieId = req.movieId) →
        createOwnership db (some uid) req newId = (.error .conflict, db)) ∧
    (∀ (db : Db) (uid : Nat) (oid : Nat) (now : Int) (o : Ownership)
        (t : Int),
        db.ownerships.find? (fun o => o.id == oid) = some o →
        o.retiredAt = some t →
        retireOwnership db (some uid) oid now = (.error .conflict, db)) := by
  constructor
  · intro db uid req newId h1 h2 h3 h4 h5
    have hany : db.ownerships.any
        (fun o => o.seasonId == req.seasonId && o.movieId == req.movieId) =
        true := by
      rcases h5 with ⟨o, ho, hs, hm⟩
      exact List.any_eq_true.mpr ⟨o, ho, by simp [hs, hm]⟩
    simp only [createOwnership]
    rw [if_neg (not_not_intro h1), if_neg (not_not_intro h2),
      if_neg (not_not_intro h3), if_neg (not_not_intro h4), if_pos hany]
  · intro db uid oid now o t hfind hret
    simp only [retireOwnership, hfind]
    rw [if_pos (by simp [hret])]

/-- Witness: acquiring already-owned movie 7 (by a different studio, 5) is a
Conflict leaving the store unchanged, and retiring the already-retired
ownership 2 is a Conflict. -/
theorem ownership_conflicts_witness :
    createOwnership c5Db (some 11) ⟨1, 1, 5, 7, 10, 5⟩ 3 =
      (.error .conflict, c5Db) ∧
    retireOwnership c5DbRetired (some 9) 2 99 =
      (.error .conflict, c5DbRetired) := by
  constructor
  · exact ownership_conflicts.1 c5Db 11 ⟨1, 1, 5, 7, 10, 5⟩ 3
      (by decide) (by decide) (by decide) (by decide)
      ⟨⟨1, 1, 1, 4, 7, 10, 0, none, false⟩, by decide, by decide, by decide⟩
  · exact ownership_conflicts.2 c5DbRetired 9 2 99
      ⟨2, 1, 1, 4, 8, 10, 0, some 50, false⟩ 50 (by decide) (by decide)

theorem applyAwardBonus_success_eq
    {seasons : List (Nat × Nat)} {leagues : List (Nat × LeagueCfg)}
    {ownerships : List Ownership} {bonuses : List AwardBonus}
    {uid seasonId categoryKey movieId : Nat} {result : AwardResult}
    {season : Nat × Nat} {lg : Nat × LeagueCfg} {cfg : AwardCategory}
    {own : Ownership}
    (hseason : seasons.find? (fun s => s.1 == seasonId) = some season)
    (hleague : leagues.find? (fun l => l.1 == season.2) = some lg)
    (hauth : lg.2.ownerId = uid ∨ uid ∈ lg.2.commissionerIds)
    (hcfg : lg.2.awardCategories.find?
        (fun c => c.key == categoryKey && c.enabled) = some cfg)
    (hown : ownerships.find?
        (fun o => o.seasonId == seasonId && o.movieId == movieId) = some own)
    (hfresh : ∀ b ∈ bonuses, ¬ (b.seasonId = seasonId ∧
        b.studioId = own.studioId ∧ b.movieId = movieId ∧
        b.categoryKey = categoryKey ∧ b.result = result)) :
    applyAwardBonus seasons leagues ownerships bonuses (some uid) seasonId
        categoryKey movieId result =
      (.ok (awardPoints cfg result),
        bonuses ++ [awardRow season.2 seasonId own.studioId movieId
          categoryKey result (awardPoints cfg result)]) := by
  have hany : bonuses.any (fun b => b.seasonId == seasonId &&
      b.studioId == own.studioId && b.movieId == movieId &&
      b.categoryKey == categoryKey && b.result == result) = false := by
    apply List.any_eq_false.mpr
    intro b hb
    have := hfresh b hb
    simp only [Bool.and_eq_true, beq_iff_eq]
    intro hc
    exact this ⟨hc.1.1.1.1, hc.1.1.1.2, hc.1.1.2, hc.1.2, hc.2⟩
  simp only [applyAwardBonus, hseason, hleague, hcfg, hown]
  rw [if_neg (not_not_intro hauth), if_neg (by rw [hany]; simp)]

theorem applyAwardBonus_conflict_eq
    {seasons : List (Nat × Nat)} {leagues : List (Nat × LeagueCfg)}
    {ownerships : List Ownership} {bonuses : List AwardBonus}
    {uid seasonId categoryKey movieId : Nat} {result : AwardResult}
    {season : Nat × Nat} {lg : Nat × LeagueCfg} {cfg : AwardCategory}
    {own : Ownership}
    (hseason : seasons.find? (fun s => s.1 == seasonId) = some season)
    (hleague : leagues.find? (fun l => l.1 == season.2) = some lg)
    (hauth : lg.2.ownerId = uid ∨ uid ∈ lg.2.commissionerIds)
    (hcfg : lg.2.awardCategories.find?
        (fun c => c.key == categoryKey && c.enabled) = some cfg)
    (hown : ownerships.find?
        (fun o => o.seasonId == seasonId && o.movieId == movieId) = some own)
    (hdup : ∃ b ∈ bonuses, b.seasonId = seasonId ∧
        b.studioId = own.studioId ∧ b.movieId = movieId ∧
        b.categoryKey = categoryKey ∧ b.result = result) :
    applyAwardBonus seasons leagues ownerships bonuses (some uid) seasonId
        categoryKey movieId result = (.error .conflict, bonuses) := by
  have hany : bonuses.any (fun b => b.seasonId == seasonId &&
      b.studioId == own.studioId && b.movieId == movieId &&
      b.categoryKey == categoryKey && b.result == result) = true := by
    rcases hdup with ⟨b, hb, h1, h2, h3, h4, h5⟩
    exact List.any_eq_true.mpr ⟨b, hb, by simp [h1, h2, h3, h4, h5]⟩
  simp only [applyAwardBonus, hseason, hleague, hcfg, hown]
  rw [if_neg (not_not_intro hauth), if_pos hany]

/-- C7: an award bonus for an exact tuple already on file is rejected as a
Conflict with nothing persisted; applying the same request twice leaves
exactly the one row of the first call, the second call being the Conflict;
and a second application differing only in `result` still passes the
tuple check. -/
theorem applyAwardBonus_idempotent_per_tuple :
    ∀ (seasons : List (Nat × Nat)) (leagues : List (Nat × LeagueCfg))
      (ownerships : List Ownership) (bonuses : List AwardBonus)
      (uid seasonId categoryKey movieId : Nat) (result : AwardResult)
      (season : Nat × Nat) (lg : Nat × LeagueCfg) (cfg : AwardCategory)
      (own : Ownership),
      seasons.find? (fun s => s.1 == seasonId) = some season →
      leagues.find? (fun l => l.1 == season.2) = some lg →
      (lg.2.ownerId = uid ∨ uid ∈ lg.2.commissionerIds) →
      lg.2.awardCategories.find?
          (fun c => c.key == categoryKey && c.enabled) = some cfg →
      ownerships.find?
          (fun o => o.seasonId == seasonId && o.movieId == movieId) =
        some own →
      (∀ b ∈ bonuses, ¬ (b.seasonId = seasonId ∧
          b.studioId = own.studioId ∧ b.movieId = movieId ∧
          b.categoryKey = categoryKey)) →
      (applyAwardBonus seasons leagues ownerships bonuses (some uid) seasonId
          categoryKey movieId result =
        (.ok (awardPoints cfg result),
          bonuses ++ [awardRow season.2 seasonId own.studioId movieId
            categoryKey result (awardPoints cfg result)])) ∧
      (applyAwardBonus seasons leagues ownerships
          (bonuses ++ [awardRow season.2 seasonId own.studioId movieId
            categoryKey result (awardPoints cfg result)])
          (some uid) seasonId categoryKey movieId result =
        (.error .conflict,
          bonuses ++ [awardRow season.2 seasonId own.studioId movieId
            categoryKey result (awardPoints cfg result)])) ∧
      (∀ result2, result2 ≠ result →
        applyAwardBonus seasons leagues ownerships
            (bonuses ++ [awardRow season.2 seasonId own.studioId movieId
              categoryKey result (awardPoints cfg result)])
            (some uid) seasonId categoryKey movieId result2 =
          (.ok (awardPoints cfg result2),
            bonuses ++ [awardRow season.2 seasonId own.studioId movieId
              categoryKey result (awardPoints cfg result)] ++
            [awardRow season.2 seasonId own.studioId movieId categoryKey
              result2 (awardPoints cfg result2)])) := by
  intro seasons leagues ownerships bonuses uid seasonId categoryKey movieId
    result season lg cfg own hseason hleague hauth hcfg hown hfresh
  refine ⟨?_, ?_, ?_⟩
  · exact applyAwardBonus_success_eq hseason hleague hauth hcfg hown
      (fun b hb hc => hfresh b hb ⟨hc.1, hc.2.1, hc.2.2.1, hc.2.2.2.1⟩)
  · apply applyAwardBonus_conflict_eq hseason hleague hauth hcfg hown
    refine ⟨awardRow season.2 seasonId own.studioId movieId categoryKey
      result (awardPoints cfg result), ?_, by simp [awardRow]⟩
    simp
  · intro result2 hne
    apply applyAwardBonus_success_eq hseason hleague hauth hcfg hown
    intro b hb hc
    rcases List.mem_append.mp hb with hb | hb
    · exact hfresh b hb ⟨hc.1, hc.2.1, hc.2.2.1, hc.2.2.2.1⟩
    · have hbrow : b = awardRow season.2 seasonId own.studioId movieId
          categoryKey result (awardPoints cfg result) := by simpa using hb
      have : b.result = result := by rw [hbrow]; rfl
      exact hne (by rw [← hc.2.2.2.2, this])

/-- Witness for `applyAwardBonus_idempotent_per_tuple` on a concrete league
with one enabled category: the first call inserts the one row, the second
call is a Conflict, and a subsequent `win` after a `nom` succeeds. -/
theorem applyAwardBonus_idempotent_per_tuple_witness :
    (applyAwardBonus [(1, 1)] [(1, ⟨9, [], [⟨2, true, 3, 5⟩]⟩)]
        [⟨1, 1, 1, 4, 7, 10, 0, none, false⟩] [] (some 9) 1 2 7 .nom =
      (.ok 3, [awardRow 1 1 4 7 2 .nom 3])) ∧
    (applyAwardBonus [(1, 1)] [(1, ⟨9, [], [⟨2, true, 3, 5⟩]⟩)]
        [⟨1, 1, 1, 4, 7, 10, 0, none, false⟩] [awardRow 1 1 4 7 2 .nom 3]
        (some 9) 1 2 7 .nom =
      (.error .conflict, [awardRow 1 1 4 7 2 .nom 3])) ∧
    (applyAwardBonus [(1, 1)] [(1, ⟨9, [], [⟨2, true, 3, 5⟩]⟩)]
        [⟨1, 1, 1, 4, 7, 10, 0, none, false⟩] [awardRow 1 1 4 7 2 .nom 3]
        (some 9) 1 2 7 .win =
      (.ok 5, [awardRow 1 1 4 7 2 .nom 3, awardRow 1 1 4 7 2 .win 5])) := by
  have h := applyAwardBonus_idempotent_per_tuple [(1, 1)]
    [(1, ⟨9, [], [⟨2, true, 3, 5⟩]⟩)] [⟨1, 1, 1, 4, 7, 10, 0, none, false⟩]
    [] 9 1 2 7 .nom (1, 1) (1, ⟨9, [], [⟨2, true, 3, 5⟩]⟩) ⟨2, true, 3, 5⟩
    ⟨1, 1, 1, 4, 7, 10, 0, none, false⟩ (by decide) (by decide)
    (Or.inl rfl) (by decide) (by decide) (by simp)
  refine ⟨?_, ?_, ?_⟩
  · simpa [awardRow, awardPoints] using h.1
  · simpa [awardRow, awardPoints] using h.2.1
  · simpa [awardRow, awardPoints] using h.2.2 .win (by decide)

/-- C10: the owning studio is resolved from the `(seasonId, movieId)`
ownership row with no condition on `retiredAt` — a retired ownership is
still credited to the formerly-owning studio — and the unowned rejection
happens exactly when no ownership row exists at all. -/
theorem applyAwardBonus_ignores_retiredAt :
    (∀ (seasons : List (Nat × Nat)) (leagues : List (Nat × LeagueCfg))
        (ownerships : List Ownership) (bonuses : List AwardBonus)
        (uid seasonId categoryKey movieId : Nat) (result : AwardResult)
        (season : Nat × Nat) (lg : Nat × LeagueCfg) (cfg : AwardCategory)
        (own : Ownership) (t : Int),
        seasons.find? (fun s => s.1 == seasonId) = some season →
        leagues.find? (fun l => l.1 == season.2) = some lg →
        (lg.2.ownerId = uid ∨ uid ∈ lg.2.commissionerIds) →
        lg.2.awardCategories.find?
            (fun c => c.key == categoryKey && c.enabled) = some cfg →
        ownerships.find?
            (fun o => o.seasonId == seasonId && o.movieId == movieId) =
          some own →
        own.retiredAt = some t →
        (∀ b ∈ bonuses, ¬ (b.seasonId = seasonId ∧
            b.studioId = own.studioId ∧ b.movieId = movieId ∧
            b.categoryKey = categoryKey ∧ b.result = result)) →
        applyAwardBonus seasons leagues ownerships bonuses (some uid)
            seasonId categoryKey movieId result =
          (.ok (awardPoints cfg result),
            bonuses ++ [awardRow season.2 seasonId own.studioId movieId
              categoryKey result (awardPoints cfg result)])) ∧
    (∀ (seasons : List (Nat × Nat)) (leagues : List (Nat × LeagueCfg))
        (ownerships : List Ownership) (bonuses : List AwardBonus)
        (uid seasonId categoryKey movieId : Nat) (result : AwardResult)
        (season : Nat × Nat) (lg : Nat × LeagueCfg) (cfg : AwardCategory),
        seasons.find? (fun s => s.1 == seasonId) = some season →
        leagues.find? (fun l => l.1 == season.2) = some lg →
        (lg.2.ownerId = uid ∨ uid ∈ lg.2.commissionerIds) →
        lg.2.awardCategories.find?
            (fun c => c.key == categoryKey && c.enabled) = some cfg →
        ownerships.find?
            (fun o => o.seasonId == seasonId && o.movieId == movieId) =
          none →
        applyAwardBonus seasons leagues ownerships bonuses (some uid)
            seasonId categoryKey movieId result =
          (.error .badRequest, bonuses)) := by
  constructor
  · intro seasons leagues ownerships bonuses uid seasonId categoryKey movieId
      result season lg cfg own t hseason hleague hauth hcfg hown hret hfresh
    exact applyAwardBonus_success_eq hseason hleague hauth hcfg hown hfresh
  · intro seasons leagues ownerships bonuses uid seasonId categoryKey movieId
      result season lg cfg hseason hleague hauth hcfg hown
    simp only [applyAwardBonus, hseason, hleague, hcfg, hown]
    rw [if_neg (not_not_intro hauth)]

/-- Witness: movie 8's ownership is retired (retiredAt 50) yet the bonus is
credited to studio 4, while unowned movie 9 is rejected. -/
theorem applyAwardBonus_ignores_retiredAt_witness :
    (applyAwardBonus [(1, 1)] [(1, ⟨9, [], [⟨2, true, 3, 5⟩]⟩)]
        [⟨2, 1, 1, 4, 8, 10, 0, some 50, false⟩] [] (some 9) 1 2 8 .win =
      (.ok 5, [awardRow 1 1 4 8 2 .win 5])) ∧
    (applyAwardBonus [(1, 1)] [(1, ⟨9, [], [⟨2, true, 3, 5⟩]⟩)]
        [⟨2, 1, 1, 4, 8, 10, 0, some 50, false⟩] [] (some 9) 1 2 9 .win =
      (.error .badRequest, [])) := by
  constructor
  · have h := applyAwardBonus_ignores_retiredAt.1 [(1, 1)]
      [(1, ⟨9, [], [⟨2, true, 3, 5⟩]⟩)] [⟨2, 1, 1, 4, 8, 10, 0, some 50, false⟩]
      [] 9 1 2 8 .win (1, 1) (1, ⟨9, [], [⟨2, true, 3, 5⟩]⟩) ⟨2, true, 3, 5⟩
      ⟨2, 1, 1, 4, 8, 10, 0, some 50, false⟩ 50 (by decide) (by decide)
      (Or.inl rfl) (by decide) (by decide) (by decide) (by simp)
    simpa [awardRow, awardPoints] using h
  · exact applyAwardBonus_ignores_retiredAt.2 [(1, 1)]
      [(1, ⟨9, [], [⟨2, true, 3, 5⟩]⟩)] [⟨2, 1, 1, 4, 8, 10, 0, some 50, false⟩]
      [] 9 1 2 9 .win (1, 1) (1, ⟨9, [], [⟨2, true, 3, 5⟩]⟩) ⟨2, true, 3, 5⟩
      (by decide) (by decide) (Or.inl rfl) (by decide) (by decide)

end Tortuga

